import Mathlib

/-!
Verification of the query/formatting/pagination layer of the Regnum Online
Forum Archive (a read-only Express + SQLite forum archive viewer).

The JavaScript helper functions (`src/utils/helpers.js`, bundled in the
repository sources) and the SQL query builders (`src/models/database.js`)
are shallowly embedded as executable Lean definitions:

* machine numbers are modelled as `Nat`/`Int` (no overflow is relevant:
  the code only does small arithmetic on page numbers and counts);
* JavaScript `null`/`undefined` are modelled as `Option.none`, and the
  JavaScript truthiness tests (`if (!x)`, `x ? a : b`, `x || y`) are
  modelled explicitly (`none` and the empty string / `0` are falsy);
* SQL result sets are modelled as Lean lists over a record type per table,
  `LIKE '%q%'` as ASCII-case-insensitive substring containment (SQLite's
  default `LIKE` is case-insensitive for ASCII only), `ORDER BY ts DESC
  NULLS LAST` as an insertion sort under an explicit total preorder, and
  `LIMIT`/`OFFSET` as `List.take`/`List.drop`.
-/

/-- ASCII lower-casing of a character, as performed by SQLite's `LIKE`
(`A`-`Z` only; all other characters, including accented ones, are kept). -/
def asciiLower (c : Char) : Char :=
  if 'A' ≤ c ∧ c ≤ 'Z' then Char.ofNat (c.toNat + 32) else c

/-- `isPre p l` holds when the character list `p` starts the list `l`. -/
def isPre : List Char → List Char → Bool
  | [], _ => true
  | _ :: _, [] => false
  | a :: as, b :: bs => a == b && isPre as bs

/-- `hasSub p l` holds when `p` occurs contiguously inside `l`
(JavaScript `String.prototype.includes`). -/
def hasSub (pat : List Char) : List Char → Bool
  | [] => isPre pat []
  | c :: t => isPre pat (c :: t) || hasSub pat t

/-- JavaScript `path.includes(pat)` on strings. -/
def strIncludes (s pat : String) : Bool :=
  hasSub pat.data s.data

/-- SQLite `s LIKE '%pat%'` (no wildcard characters inside `pat`):
ASCII-case-insensitive substring containment. -/
def likeContains (s pat : String) : Bool :=
  hasSub (pat.data.map asciiLower) (s.data.map asciiLower)

/-- SQLite `s LIKE '%pat'`: ASCII-case-insensitive suffix test. -/
def likeEndsWith (s pat : String) : Bool :=
  isPre (pat.data.map asciiLower).reverse (s.data.map asciiLower).reverse

/-- JavaScript truthiness of a nullable string (`undefined`, `null` and
`''` are falsy). -/
def jsTruthyS : Option String → Bool
  | none => false
  | some s => !(s == "")

/-- JavaScript `parseInt(x) || d`: `none` models a `NaN` parse result and,
like `0`, falls through to the default. -/
def jsOrInt (x : Option Int) (d : Int) : Int :=
  match x with
  | none => d
  | some v => if v = 0 then d else v

/-- Ceiling division on naturals (`Math.ceil(a / b)` for nonnegative `a`
and positive `b`). -/
def natCeilDiv (a b : Nat) : Nat := (a + b - 1) / b

/-- Lexicographic `≤` on character lists by code point — the order
SQLite's default binary collation imposes on UTF-8 text (byte order on
UTF-8 agrees with code-point order). -/
def strLeList : List Char → List Char → Bool
  | [], _ => true
  | _ :: _, [] => false
  | a :: as, b :: bs =>
    if a.toNat < b.toNat then true
    else if b.toNat < a.toNat then false
    else strLeList as bs

/-- SQLite binary-collation `≤` on strings. -/
def strLe (x y : String) : Bool := strLeList x.data y.data

/-! ## Path taxonomy resolver (`getLanguageFromPath`, `getCategoryFromPath`) -/

/-- `getLanguageFromPath` from `src/utils/helpers.js`: a fixed chain of
substring tests on slash-bracketed language tokens, first match wins,
falling through to the sentinel `"Other"`. -/
def getLanguageFromPath (path : String) : String :=
  if strIncludes path "/Español/" then "Español"
  else if strIncludes path "/English/" then "English"
  else if strIncludes path "/Português/" then "Português"
  else if strIncludes path "/Deutsch/" then "Deutsch"
  else if strIncludes path "/Français/" then "Français"
  else if strIncludes path "/Italiano/" then "Italiano"
  else "Other"

/-- The recognized language tokens in the priority order in which the code
checks them, paired with the language each resolves to. -/
def langTokens : List (String × String) :=
  [("/Español/", "Español"), ("/English/", "English"),
   ("/Português/", "Português"), ("/Deutsch/", "Deutsch"),
   ("/Français/", "Français"), ("/Italiano/", "Italiano")]

/-- Language resolution as the specification words it: the language of the
first token (in the fixed priority order) contained in the path, and the
sentinel `"Other"` when no token occurs. -/
def firstTokenLang (path : String) : String :=
  match langTokens.find? (fun tp => strIncludes path tp.1) with
  | some tp => tp.2
  | none => "Other"

/-- JavaScript `String.prototype.split('/')` on the character list of the
path: always returns at least one (possibly empty) segment. -/
def splitSlash : List Char → List (List Char)
  | [] => [[]]
  | c :: rest =>
    let r := splitSlash rest
    if c = '/' then [] :: r
    else
      match r with
      | s :: ss => (c :: s) :: ss
      | [] => [[c]]

/-- `getCategoryFromPath` from `src/utils/helpers.js`: split on `/`; with
at least four segments return the last segment, otherwise the sentinel
`"General"`. -/
def getCategoryFromPath (path : String) : String :=
  let parts := splitSlash path.data
  if parts.length ≥ 4 then String.mk (parts.getLastD []) else "General"

/-- Category resolution as the specification words it (for comparison
with the source definition): strip the constant path head
`Calendar/Champions of Regnum/` plus the resolved language segment and
return the whole remainder, with the same `"General"` fallback for paths
of fewer than four segments. -/
def specCategoryFromPath (path : String) : String :=
  if (splitSlash path.data).length ≥ 4 then
    let pfx := "Calendar/Champions of Regnum/" ++ getLanguageFromPath path ++ "/"
    if isPre pfx.data path.data then String.mk (path.data.drop pfx.data.length)
    else path
  else "General"

/-! ## Timestamp normalizer (`formatTimestamp`)

`formatTimestamp` parses the archive's free-form timestamp strings with
`moment(timestamp, format)` against a primary format
`'DD-MM-YYYY, hh:mm A'` and four alternatives, rendering the first valid
parse as `'MMM D, YYYY \a\t h:mm A'` and falling back to the raw string.
The moment.js parser is modelled as a shape-exact reader of each format
(two-digit day/month/hour/minute fields, four-digit year, the literal
separators of the format, and a trailing AM/PM marker) that rejects
calendar-invalid dates, which is how moment flags such inputs invalid. -/

/-- The five moment.js format strings tried by `formatTimestamp`, in
source order: `DD-MM-YYYY, hh:mm A` (primary), then `MM-DD-YYYY, hh:mm A`,
`DD/MM/YYYY, hh:mm A`, `MM/DD/YYYY, hh:mm A`, `YYYY-MM-DD hh:mm A`. -/
inductive TSFormat
  | dmyDash
  | mdyDash
  | dmySlash
  | mdySlash
  | ymdDash
deriving DecidableEq

/-- A parsed wall-clock date-time (12-hour clock, `pm` flag). -/
structure DT where
  day : Nat
  month : Nat
  year : Nat
  hour : Nat
  minute : Nat
  pm : Bool
deriving DecidableEq

def digitVal (c : Char) : Nat := c.toNat - '0'.toNat

/-- Read exactly two digits. -/
def read2 : List Char → Option (Nat × List Char)
  | a :: b :: rest =>
    if a.isDigit && b.isDigit then some (digitVal a * 10 + digitVal b, rest) else none
  | _ => none

/-- Read exactly four digits. -/
def read4 : List Char → Option (Nat × List Char)
  | a :: b :: c :: d :: rest =>
    if a.isDigit && b.isDigit && c.isDigit && d.isDigit then
      some (((digitVal a * 10 + digitVal b) * 10 + digitVal c) * 10 + digitVal d, rest)
    else none
  | _ => none

def expectCh (ch : Char) : List Char → Option (List Char)
  | c :: rest => if c = ch then some rest else none
  | [] => none

/-- Read an AM/PM marker (`true` = PM); moment accepts either case. -/
def readAmPm : List Char → Option (Bool × List Char)
  | a :: p :: rest =>
    if (a = 'A' ∨ a = 'a') ∧ (p = 'M' ∨ p = 'm') then some (false, rest)
    else if (a = 'P' ∨ a = 'p') ∧ (p = 'M' ∨ p = 'm') then some (true, rest)
    else none
  | _ => none

def isLeap (y : Nat) : Bool := (y % 4 = 0 && y % 100 ≠ 0) || y % 400 = 0

def daysInMonth (m y : Nat) : Nat :=
  if m = 2 then (if isLeap y then 29 else 28)
  else if m = 4 ∨ m = 6 ∨ m = 9 ∨ m = 11 then 30
  else 31

/-- Calendar validity as moment checks it when deciding `isValid()`. -/
def validDT (d : DT) : Bool :=
  1 ≤ d.month && d.month ≤ 12 && 1 ≤ d.day && d.day ≤ daysInMonth d.month d.year
    && 1 ≤ d.hour && d.hour ≤ 12 && d.minute ≤ 59

/-- Read the date part of a format (day/month order and separator vary). -/
def parseDate (fmt : TSFormat) (cs : List Char) : Option (Nat × Nat × Nat × List Char) :=
  match fmt with
  | .dmyDash => do
    let (d, cs) ← read2 cs
    let cs ← expectCh '-' cs
    let (m, cs) ← read2 cs
    let cs ← expectCh '-' cs
    let (y, cs) ← read4 cs
    some (d, m, y, cs)
  | .mdyDash => do
    let (m, cs) ← read2 cs
    let cs ← expectCh '-' cs
    let (d, cs) ← read2 cs
    let cs ← expectCh '-' cs
    let (y, cs) ← read4 cs
    some (d, m, y, cs)
  | .dmySlash => do
    let (d, cs) ← read2 cs
    let cs ← expectCh '/' cs
    let (m, cs) ← read2 cs
    let cs ← expectCh '/' cs
    let (y, cs) ← read4 cs
    some (d, m, y, cs)
  | .mdySlash => do
    let (m, cs) ← read2 cs
    let cs ← expectCh '/' cs
    let (d, cs) ← read2 cs
    let cs ← expectCh '/' cs
    let (y, cs) ← read4 cs
    some (d, m, y, cs)
  | .ymdDash => do
    let (y, cs) ← read4 cs
    let cs ← expectCh '-' cs
    let (m, cs) ← read2 cs
    let cs ← expectCh '-' cs
    let (d, cs) ← read2 cs
    some (d, m, y, cs)

/-- `moment(s, fmt).isValid()` together with the parsed fields: the whole
string must follow the format (date, `", "` separator — a plain space for
the ISO-like format — time, AM/PM marker) and denote a real calendar
date. -/
def parseTS (fmt : TSFormat) (s : String) : Option DT := do
  let cs := s.data
  let (d, m, y, cs) ← parseDate fmt cs
  let cs ← (match fmt with
    | .ymdDash => expectCh ' ' cs
    | _ => do
      let cs ← expectCh ',' cs
      expectCh ' ' cs)
  let (h, cs) ← read2 cs
  let cs ← expectCh ':' cs
  let (mi, cs) ← read2 cs
  let cs ← expectCh ' ' cs
  let (pm, cs) ← readAmPm cs
  if cs = [] then
    let dt : DT := ⟨d, m, y, h, mi, pm⟩
    if validDT dt then some dt else none
  else none

def monthAbbr : Nat → String
  | 1 => "Jan" | 2 => "Feb" | 3 => "Mar" | 4 => "Apr" | 5 => "May" | 6 => "Jun"
  | 7 => "Jul" | 8 => "Aug" | 9 => "Sep" | 10 => "Oct" | 11 => "Nov" | 12 => "Dec"
  | _ => ""

def pad2 (n : Nat) : String := if n < 10 then "0" ++ toString n else toString n

/-- The canonical output format `'MMM D, YYYY \a\t h:mm A'`. -/
def renderTS (d : DT) : String :=
  monthAbbr d.month ++ " " ++ toString d.day ++ ", " ++ toString d.year
    ++ " at " ++ toString d.hour ++ ":" ++ pad2 d.minute ++ " "
    ++ (if d.pm then "PM" else "AM")

/-- The `for (const format of formats)` loop over the alternative
formats: first valid parse wins. -/
def tryAltFormats (s : String) : List TSFormat → Option DT
  | [] => none
  | f :: rest =>
    match parseTS f s with
    | some dt => some dt
    | none => tryAltFormats s rest

/-- The alternative formats tried after the primary one, in source
order. -/
def altFormats : List TSFormat := [.mdyDash, .dmySlash, .mdySlash, .ymdDash]

/-- All formats in the order the code attempts them. -/
def allTSFormats : List TSFormat := .dmyDash :: altFormats

/-- `formatTimestamp` from `src/utils/helpers.js`. A `none` argument
models a `null`/`undefined` timestamp (the `if (!timestamp)` guard also
catches the empty string). -/
def formatTimestamp : Option String → String
  | none => "Unknown"
  | some s =>
    if s = "" then "Unknown"
    else
      match parseTS .dmyDash s with
      | some dt => renderTS dt
      | none =>
        match tryAltFormats s altFormats with
        | some dt => renderTS dt
        | none => s

/-! ## Pagination calculator (`validatePagination`, `getPagination`)

`validatePagination(page, limit)` clamps the requested page and limit and
derives the query offset; `getPagination(currentPage, totalItems,
itemsPerPage, baseUrl)` derives page-navigation metadata. The
specification's Pagination Calculator contract
`(requestedPage, requestedLimit, totalItemCount) → {page, limit, offset,
totalPages, hasNext, hasPrev, startItem, endItem}` is their composition.
Raw request parameters are modelled as `Option Int` (`none` = a
non-numeric parameter, i.e. a `NaN` result of `parseInt`). `startItem`
and `endItem` are `Int` because the JavaScript expressions can go
negative for page values below 1, which `getPagination` itself does not
clamp. `itemsPerPage` is assumed positive, as guaranteed by
`validatePagination` at every call site. -/

structure PageLink where
  page : Int
  url : String
  active : Bool
deriving DecidableEq

structure PaginationInfo where
  pages : List PageLink
  prev : Option String
  next : Option String
  totalPages : Nat
  currentPage : Int
  totalItems : Nat
  itemsPerPage : Nat
  hasNext : Bool
  hasPrev : Bool
  startItem : Int
  endItem : Int
deriving DecidableEq

/-- `getPagination` from `src/utils/helpers.js`. -/
def getPagination (currentPage : Int) (totalItems : Nat) (itemsPerPage : Nat)
    (baseUrl : String) : PaginationInfo :=
  let totalPages := natCeilDiv totalItems itemsPerPage
  let startPage : Int := max 1 (currentPage - 2)
  let endPage : Int := min (totalPages : Int) (currentPage + 2)
  let pages :=
    if startPage ≤ endPage then
      (List.range (endPage - startPage + 1).toNat).map fun k =>
        let i : Int := startPage + k
        { page := i, url := baseUrl ++ "&page=" ++ toString i,
          active := i == currentPage : PageLink }
    else []
  { pages := pages
    prev := if currentPage > 1 then some (baseUrl ++ "&page=" ++ toString (currentPage - 1)) else none
    next := if currentPage < totalPages then some (baseUrl ++ "&page=" ++ toString (currentPage + 1)) else none
    totalPages := totalPages
    currentPage := currentPage
    totalItems := totalItems
    itemsPerPage := itemsPerPage
    hasNext := currentPage < totalPages
    hasPrev := currentPage > 1
    startItem := (currentPage - 1) * itemsPerPage + 1
    endItem := min (currentPage * itemsPerPage) (totalItems : Int) }

structure PageLimit where
  page : Nat
  limit : Nat
  offset : Nat
deriving DecidableEq

/-- `validatePagination` from `src/utils/helpers.js`:
`page = Math.max(1, parseInt(page) || 1)`,
`limit = Math.min(100, Math.max(1, parseInt(limit) || 20))`,
`offset = (page - 1) * limit`. The clamped values are nonnegative, so
they are carried as `Nat`. -/
def validatePagination (page limitArg : Option Int) : PageLimit :=
  let p := (max 1 (jsOrInt page 1)).toNat
  let l := (min 100 (max 1 (jsOrInt limitArg 20))).toNat
  { page := p, limit := l, offset := (p - 1) * l }

/-- The record shape of the specification's Pagination Calculator. -/
structure CalcResult where
  page : Nat
  limit : Nat
  offset : Nat
  totalPages : Nat
  hasNext : Bool
  hasPrev : Bool
  startItem : Int
  endItem : Int
deriving DecidableEq

/-- The specification's Pagination Calculator: `validatePagination`
followed by `getPagination` on the clamped values (the `baseUrl`
argument only feeds the navigation URLs, which the contract does not
mention, and is instantiated with the empty string). -/
def paginationCalc (page limitArg : Option Int) (total : Nat) : CalcResult :=
  let v := validatePagination page limitArg
  let g := getPagination (v.page : Int) total v.limit ""
  { page := v.page, limit := v.limit, offset := v.offset,
    totalPages := g.totalPages, hasNext := g.hasNext, hasPrev := g.hasPrev,
    startItem := g.startItem, endItem := g.endItem }

/-! ## HTML sanitizer (`sanitizeHtmlContent`)

Modelled from the spec: the sanitizer itself is the external npm library
`sanitize-html`, which is not part of this repository — only its
configuration is (`allowedTags`, `allowedAttributes`, `allowedSchemes` in
`sanitizeHtmlContent`). The library parses the message body and rebuilds
it keeping only allow-listed tags and attributes; per the spec this is
"an HTML allow-list filter (permitted tags restricted to common
formatting/markup elements; permitted attributes restricted per-tag …;
permitted URL schemes restricted to http/https/mailto)". It is modelled
here on the parsed document (a token list: text runs, opening tags with
attributes, closing tags). Disallowed tags are discarded; for the
library's non-text tags (`script`, `style`, `textarea`, `option`) the
enclosed content is discarded as well, which is how a script body never
reaches the output. The configuration lists are taken verbatim from the
source. -/

inductive HTok
  | txt (s : String)
  | tagOpen (name : String) (attrs : List (String × String))
  | tagClose (name : String)
deriving DecidableEq

/-- `allowedTags` from `sanitizeHtmlContent` in `src/utils/helpers.js`. -/
def allowedTags : List String :=
  ["p", "br", "b", "strong", "i", "em", "u", "a", "img", "div", "span",
   "ul", "ol", "li", "blockquote", "h1", "h2", "h3", "h4", "h5", "h6",
   "pre", "code", "hr", "table", "thead", "tbody", "tr", "td", "th"]

/-- The per-tag entries of `allowedAttributes` from the source
(`a: ['href', 'title', 'target']`, `img: ['src', 'alt', 'title',
'width', 'height']`). -/
def allowedAttrsFor (tag : String) : List String :=
  if tag = "a" then ["href", "title", "target"]
  else if tag = "img" then ["src", "alt", "title", "width", "height"]
  else []

/-- The `'*': ['class', 'style']` wildcard entry of `allowedAttributes`. -/
def starAttrs : List String := ["class", "style"]

/-- `allowedSchemes` from the source. -/
def allowedSchemes : List String := ["http", "https", "mailto"]

/-- sanitize-html's default `nonTextTags`: disallowed tags whose textual
content is discarded rather than kept. -/
def nonTextTags : List String := ["script", "style", "textarea", "option"]

/-- The scheme of a URL value: the text before the first `:` when one is
present (lower-cased), `none` for a relative URL. -/
def schemeOf (v : String) : Option String :=
  if v.data.contains ':' then
    some (String.mk ((v.data.takeWhile (fun c => c ≠ ':')).map asciiLower))
  else none

/-- A URL is acceptable when it is relative or its scheme is one of
`allowedSchemes`. -/
def urlSchemeOk (v : String) : Bool :=
  match schemeOf v with
  | none => true
  | some sch => allowedSchemes.contains sch

/-- An attribute survives when its name is allow-listed for the tag (or
by the `*` entry) and, for URL-carrying attributes (`href`, `src`), its
value passes the scheme check. -/
def attrOk (tag : String) (kv : String × String) : Bool :=
  ((allowedAttrsFor tag).contains kv.1 || starAttrs.contains kv.1)
    && (if kv.1 = "href" || kv.1 = "src" then urlSchemeOk kv.2 else true)

def filterAttrs (tag : String) (attrs : List (String × String)) : List (String × String) :=
  attrs.filter (attrOk tag)

/-- The allow-list pass over the parsed document. The first argument is
the discard state: `some t` while skipping the content of a disallowed
non-text tag `t`. -/
def sanitizeToks : Option String → List HTok → List HTok
  | _, [] => []
  | some t, tok :: rest =>
    if tok = HTok.tagClose t then sanitizeToks none rest else sanitizeToks (some t) rest
  | none, HTok.txt s :: rest => HTok.txt s :: sanitizeToks none rest
  | none, HTok.tagClose n :: rest =>
    if allowedTags.contains n then HTok.tagClose n :: sanitizeToks none rest
    else sanitizeToks none rest
  | none, HTok.tagOpen n attrs :: rest =>
    if allowedTags.contains n then
      HTok.tagOpen n (filterAttrs n attrs) :: sanitizeToks none rest
    else if nonTextTags.contains n then sanitizeToks (some n) rest
    else sanitizeToks none rest

/-- `sanitizeHtmlContent` from `src/utils/helpers.js`: the
`if (!html) return ''` guard followed by the library call with the
configuration above; a `none` body (null message) yields the empty
document. -/
def sanitizeHtmlContent (html : Option (List HTok)) : List HTok :=
  match html with
  | none => []
  | some h => sanitizeToks none h

/-- A parsed-document token carrying only allow-listed tag names. -/
def tokAllowed : HTok → Prop
  | .txt _ => True
  | .tagOpen n _ => allowedTags.contains n = true
  | .tagClose n => allowedTags.contains n = true

instance : DecidablePred tokAllowed := fun tok => by
  cases tok <;> simp only [tokAllowed] <;> infer_instance

/-- Attribute filtering applied tokenwise (what sanitization does to a
document that contains only allowed tags). -/
def attrMapTok : HTok → HTok
  | .tagOpen n a => .tagOpen n (filterAttrs n a)
  | t => t

/-! ## Result formatters (`formatThreadForApi`, `formatUserForApi`,
`formatPostForApi`)

Each formatter takes a nullable row object and returns a nullable
presentation object. Row fields that can be absent (`undefined`) or SQL
`NULL` are `Option`-valued; the JavaScript truthiness tests in the source
(`x ? f(x) : null`, `x || fallback`) are modelled explicitly, including
their treatment of the empty string and of `0` as falsy. -/

/-- A thread-shaped result row (output of `getThreads`/`searchThreads`,
or a bare `threads` table row from `getThread`, in which case the derived
fields are absent). -/
structure ThreadRow where
  id : Nat
  name : String
  path : String
  post_count : Option Nat
  last_poster : Option String
  last_post_time : Option String
  created_time : Option String
  thread_creator : Option String
deriving DecidableEq

structure ThreadApi where
  id : Nat
  name : String
  path : String
  language : String
  category : String
  postCount : Nat
  lastPoster : Option String
  lastPostTime : Option String
  createdTime : Option String
  threadCreator : Option String
deriving DecidableEq

/-- `formatThreadForApi` from `src/utils/helpers.js`. -/
def formatThreadForApi (thread : Option ThreadRow) : Option ThreadApi :=
  match thread with
  | none => none
  | some t =>
    some
      { id := t.id
        name := t.name
        path := t.path
        language := getLanguageFromPath t.path
        category := getCategoryFromPath t.path
        postCount := t.post_count.getD 0
        lastPoster := t.last_poster
        lastPostTime := if jsTruthyS t.last_post_time then some (formatTimestamp t.last_post_time) else none
        createdTime := if jsTruthyS t.created_time then some (formatTimestamp t.created_time) else none
        threadCreator := t.thread_creator }

/-- A user-shaped result row: `getUserList` rows carry `post_count` and
`thread_count`; `getUserWithStats` rows carry `total_posts` and
`total_threads` instead, so all four are optional. -/
structure UserRow where
  id : Nat
  name : Option String
  post_count : Option Nat
  total_posts : Option Nat
  thread_count : Option Nat
  total_threads : Option Nat
  first_post : Option String
  last_post : Option String
deriving DecidableEq

structure UserApi where
  id : Nat
  name : Option String
  postCount : Nat
  threadCount : Nat
  firstPost : Option String
  lastPost : Option String
deriving DecidableEq

/-- JavaScript `a || b || 0` on two optional counts (`0` is falsy and
falls through). -/
def jsCountOr (a b : Option Nat) : Nat :=
  match a with
  | some (n + 1) => n + 1
  | _ =>
    match b with
    | some (m + 1) => m + 1
    | _ => 0

/-- `formatUserForApi` from `src/utils/helpers.js`. -/
def formatUserForApi (user : Option UserRow) : Option UserApi :=
  match user with
  | none => none
  | some u =>
    some
      { id := u.id
        name := u.name
        postCount := jsCountOr u.post_count u.total_posts
        threadCount := jsCountOr u.thread_count u.total_threads
        firstPost := if jsTruthyS u.first_post then some (formatTimestamp u.first_post) else none
        lastPost := if jsTruthyS u.last_post then some (formatTimestamp u.last_post) else none }

/-- A post-shaped result row (`getPosts` joins the poster's name in as
`username`, which is `NULL` for guest posts; `getUserPosts` rows carry
`thread_name`/`thread_path` instead). The message body is carried as a
parsed HTML document, the representation the sanitizer operates on. -/
structure PostApiRow where
  id : Nat
  thread_id : Nat
  post_no : Nat
  user_id : Option Nat
  username : Option String
  timestamp : Option String
  message : Option (List HTok)
  thread_name : Option String
  thread_path : Option String
deriving DecidableEq

structure PostApi where
  id : Nat
  threadId : Nat
  postNo : Nat
  userId : Option Nat
  username : String
  timestamp : Option String
  message : List HTok
  threadName : Option String
  threadPath : Option String
deriving DecidableEq

/-- `formatPostForApi` from `src/utils/helpers.js`; `post.username ||
'Guest'` makes a missing, null or empty joined username render as
`"Guest"`. -/
def formatPostForApi (post : Option PostApiRow) : Option PostApi :=
  match post with
  | none => none
  | some p =>
    some
      { id := p.id
        threadId := p.thread_id
        postNo := p.post_no
        userId := p.user_id
        username :=
          match p.username with
          | some s => if s = "" then "Guest" else s
          | none => "Guest"
        timestamp := if jsTruthyS p.timestamp then some (formatTimestamp p.timestamp) else none
        message := sanitizeHtmlContent p.message
        threadName := p.thread_name
        threadPath := p.thread_path }

/-! ## Database model and query builders (`getThreads`, `searchThreads`)

The three tables of the read-only SQLite store are lists of records; the
query builders of `src/models/database.js` are re-expressed over them.
Timestamps are stored as free-form strings and all SQL
comparisons/aggregations on them (`MAX`, `MIN`, `ORDER BY`) use SQLite's
default binary collation, modelled by Lean's lexicographic `String`
order. -/

structure ThreadRec where
  id : Nat
  name : String
  path : String
deriving DecidableEq

structure PostRec where
  id : Nat
  thread_id : Nat
  post_no : Nat
  user_id : Option Nat
  timestamp : Option String
  message : Option String
deriving DecidableEq

structure UserRec where
  id : Nat
  name : Option String
deriving DecidableEq

structure Db where
  threads : List ThreadRec
  posts : List PostRec
  users : List UserRec
deriving DecidableEq

def threadPosts (db : Db) (t : ThreadRec) : List PostRec :=
  db.posts.filter (fun p => p.thread_id == t.id)

/-- SQL `MAX` over a string column: `NULL`s are ignored, `NULL` when no
non-null value exists. -/
def optMaxStr (l : List String) : Option String :=
  l.foldl (fun acc s => match acc with | none => some s | some m => some (if strLe m s then s else m)) none

/-- SQL `MIN` over a string column. -/
def optMinStr (l : List String) : Option String :=
  l.foldl (fun acc s => match acc with | none => some s | some m => some (if strLe s m then s else m)) none

/-- `(SELECT MAX(timestamp) FROM posts WHERE thread_id = t.id)`. -/
def lastPostTime (db : Db) (t : ThreadRec) : Option String :=
  optMaxStr ((threadPosts db t).filterMap (fun p => p.timestamp))

/-- `(SELECT MIN(timestamp) FROM posts WHERE thread_id = t.id)`. -/
def createdTime (db : Db) (t : ThreadRec) : Option String :=
  optMinStr ((threadPosts db t).filterMap (fun p => p.timestamp))

/-- `(SELECT COUNT(*) FROM posts WHERE thread_id = t.id)`. -/
def postCountOf (db : Db) (t : ThreadRec) : Nat :=
  (threadPosts db t).length

/-- Resolve a user id through the `users` table (`NULL` when the id is
null or unmatched). -/
def findUser (db : Db) (uid : Option Nat) : Option UserRec :=
  match uid with
  | none => none
  | some i => db.users.find? (fun u => u.id == i)

/-- Ordering key comparison for `ORDER BY <timestamp> DESC NULLS LAST`:
`tsDescLe a b` holds when a row with key `a` may precede a row with
key `b`. -/
def tsDescLe (a b : Option String) : Bool :=
  match a, b with
  | some x, some y => strLe y x
  | some _, none => true
  | none, some _ => false
  | none, none => true

/-- The posts of a thread that join to an existing user row, as in the
`JOIN users u ON p.user_id = u.id` correlated subqueries. -/
def joinedPosts (db : Db) (t : ThreadRec) : List PostRec :=
  (threadPosts db t).filter (fun p => (findUser db p.user_id).isSome)

/-- `ORDER BY p.timestamp DESC LIMIT 1` over a post list: a post whose
timestamp is maximal under the `DESC NULLS LAST` order (the first such
post; SQLite leaves ties unspecified). -/
def pickMaxByTs : List PostRec → Option PostRec
  | [] => none
  | p :: rest =>
    match pickMaxByTs rest with
    | none => some p
    | some q => if tsDescLe p.timestamp q.timestamp then some p else some q

/-- `ORDER BY p.post_no ASC LIMIT 1` over a post list. -/
def pickMinByNo : List PostRec → Option PostRec
  | [] => none
  | p :: rest =>
    match pickMinByNo rest with
    | none => some p
    | some q => if p.post_no ≤ q.post_no then some p else some q

/-- `ORDER BY timestamp ASC LIMIT 1` over a post list (`NULL`s first, as
SQLite sorts them in ascending order). -/
def pickMinByTs : List PostRec → Option PostRec
  | [] => none
  | p :: rest =>
    match pickMinByTs rest with
    | none => some p
    | some q => if tsDescLe q.timestamp p.timestamp then some p else some q

/-- The `last_poster` subquery of `getThreads`: name of the user of the
most recent user-resolvable post. -/
def lastPosterOf (db : Db) (t : ThreadRec) : Option String :=
  match pickMaxByTs (joinedPosts db t) with
  | none => none
  | some p => (findUser db p.user_id).bind (fun u => u.name)

/-- The `thread_creator` subquery of `getThreads`: name of the user of
the user-resolvable post with the lowest `post_no`. -/
def threadCreatorOf (db : Db) (t : ThreadRec) : Option String :=
  match pickMinByNo (joinedPosts db t) with
  | none => none
  | some p => (findUser db p.user_id).bind (fun u => u.name)

/-- Row shape produced by `getThreads` for one thread. -/
def mkThreadRow (db : Db) (t : ThreadRec) : ThreadRow :=
  { id := t.id
    name := t.name
    path := t.path
    post_count := some (postCountOf db t)
    last_poster := lastPosterOf db t
    last_post_time := lastPostTime db t
    created_time := createdTime db t
    thread_creator := threadCreatorOf db t }

/-- The sort relation realizing `ORDER BY last_post_time DESC NULLS
LAST` on threads. -/
def threadOrder (db : Db) (a b : ThreadRec) : Prop :=
  tsDescLe (lastPostTime db a) (lastPostTime db b) = true

instance (db : Db) : DecidableRel (threadOrder db) :=
  fun _ _ => instDecidableEqBool _ _

/-- The optional-language predicate `if (language) { path LIKE
'%/<language>/%' }` (an absent or empty parameter adds no filter). -/
def langFilter (language : Option String) (t : ThreadRec) : Bool :=
  match language with
  | none => true
  | some l => if l = "" then true else likeContains t.path ("/" ++ l ++ "/")

/-- The optional-category predicate `if (category) { path LIKE
'%/<category>' }`. -/
def catFilter (category : Option String) (t : ThreadRec) : Bool :=
  match category with
  | none => true
  | some c => if c = "" then true else likeEndsWith t.path ("/" ++ c)

/-- `getThreads` from `src/models/database.js`: filter by the optional
language/category predicates, sort by `last_post_time DESC NULLS LAST`,
apply `OFFSET`/`LIMIT`, and emit thread-shaped rows. -/
def getThreads (language category : Option String) (limit offset : Nat)
    (db : Db) : List ThreadRow :=
  let base := db.threads.filter (fun t => langFilter language t && catFilter category t)
  let sorted := List.insertionSort (threadOrder db) base
  ((sorted.drop offset).take limit).map (mkThreadRow db)

/-- The `WHERE` clause of `searchThreads`: the thread name matches, or
some post of the thread has a matching message (`EXISTS` subquery) — a
thread-level test, not a per-post filter. -/
def threadMatches (db : Db) (q : String) (t : ThreadRec) : Bool :=
  likeContains t.name q
    || db.posts.any (fun p =>
        p.thread_id == t.id
          && (match p.message with
              | some m => likeContains m q
              | none => false))

/-- The `last_poster` join of `searchThreads` (`LEFT JOIN users u ON
p.user_id = u.id AND p.timestamp = (SELECT MAX(timestamp) …)`): the user
name of a post carrying the maximal timestamp, `NULL` when that post has
no user row. -/
def searchLastPoster (db : Db) (t : ThreadRec) : Option String :=
  match (threadPosts db t).find? (fun p => p.timestamp == lastPostTime db t) with
  | none => none
  | some p => (findUser db p.user_id).bind (fun u => u.name)

/-- The `thread_creator` join of `searchThreads` (`u2.id = (SELECT
user_id FROM posts WHERE thread_id = t.id ORDER BY timestamp ASC LIMIT
1)`). -/
def searchThreadCreator (db : Db) (t : ThreadRec) : Option String :=
  match pickMinByTs (threadPosts db t) with
  | none => none
  | some p => (findUser db p.user_id).bind (fun u => u.name)

/-- Row shape produced by `searchThreads` for one thread. -/
def mkSearchRow (db : Db) (t : ThreadRec) : ThreadRow :=
  { id := t.id
    name := t.name
    path := t.path
    post_count := some (postCountOf db t)
    last_poster := searchLastPoster db t
    last_post_time := lastPostTime db t
    created_time := createdTime db t
    thread_creator := searchThreadCreator db t }

/-- `searchThreads` from `src/models/database.js`: thread-level match
filter plus the optional language filter, grouped per thread, `ORDER BY
MAX(p.timestamp) DESC` — the most recent post of the thread overall, not
the most recent matching post — and a hard `LIMIT 50`. -/
def searchThreads (q : String) (language : Option String) (db : Db) : List ThreadRow :=
  let base := db.threads.filter (fun t => threadMatches db q t && langFilter language t)
  let sorted := List.insertionSort (threadOrder db) base
  (sorted.take 50).map (mkSearchRow db)

/-- The most recent timestamp among the posts of `t` whose message
matches the search term — the ordering key the specification describes
("most-recent matching post timestamp"), stated from the spec's words
for comparison with the source ordering. -/
def specMatchingLastTs (db : Db) (q : String) (t : ThreadRec) : Option String :=
  optMaxStr ((threadPosts db t).filterMap (fun p =>
    match p.message with
    | some m => if likeContains m q then p.timestamp else none
    | none => none))

/-- Boolean check that a list of ordering keys is descending (nulls
last): used to state that an output is, or is not, ordered by a given
key. -/
def descChain : List (Option String) → Bool
  | [] => true
  | [_] => true
  | a :: b :: t => tsDescLe a b && descChain (b :: t)

/-! ## The thread-list route handler (`GET /api/threads`) -/

/-- The `pagination` object of the thread-list response. The route
builds `{page, limit, hasMore}` only; the remaining fields are modelled
as optional and absent so that response shapes can be compared against
the shape the specification promises. -/
structure RoutePagination where
  page : Nat
  limit : Nat
  totalPages : Option Nat
  hasNext : Option Bool
  hasPrev : Option Bool
  hasMore : Option Bool
deriving DecidableEq

structure ThreadsFilters where
  language : Option String
  category : Option String
  search : Option String
deriving DecidableEq

structure ThreadsResponse where
  threads : List (Option ThreadApi)
  pagination : RoutePagination
  filters : ThreadsFilters
deriving DecidableEq

/-- The `router.get('/')` handler of `src/routes/threads.js`: validate
pagination, dispatch on a truthy `search` parameter to `searchThreads`
(which ignores `page`/`limit`) or `getThreads`, format every row, and
answer with `{threads, pagination: {page, limit, hasMore}, filters}`. -/
def handleThreadsList (language category search : Option String)
    (page limitArg : Option Int) (db : Db) : ThreadsResponse :=
  let pag := validatePagination page limitArg
  let rows :=
    if jsTruthyS search then searchThreads (search.getD "") language db
    else getThreads language category pag.limit pag.offset db
  let formatted := rows.map (fun r => formatThreadForApi (some r))
  { threads := formatted
    pagination :=
      { page := pag.page, limit := pag.limit,
        totalPages := none, hasNext := none, hasPrev := none,
        hasMore := some (formatted.length == pag.limit) }
    filters := { language := language, category := category, search := search } }

/-! ## Concrete datasets for the scenario claims -/

/-- 45 English-language threads, thread `i+1` holding one post stamped
`toString (99 - i)` so that the stored order is already the
most-recent-first order. -/
def db45 : Db :=
  { threads := (List.range 45).map (fun i =>
      { id := i + 1, name := "thread", path := "x/y/English/z" })
    posts := (List.range 45).map (fun i =>
      { id := i + 1, thread_id := i + 1, post_no := 1, user_id := none,
        timestamp := some (toString (99 - i)), message := none })
    users := [] }

/-- Two threads both matching the term `"needle"` through a post
message. Thread 1's matching post is the latest thing in it (stamp
`"5"`); thread 2's matching post is old (stamp `"1"`) but a later
non-matching post (stamp `"9"`) makes thread 2 the more recently active
thread overall. -/
def dbNeedle : Db :=
  { threads :=
      [{ id := 1, name := "alpha", path := "x/y/English/z" },
       { id := 2, name := "beta", path := "x/y/English/z" }]
    posts :=
      [{ id := 1, thread_id := 1, post_no := 1, user_id := none,
         timestamp := some "5", message := some "a needle here" },
       { id := 2, thread_id := 2, post_no := 1, user_id := none,
         timestamp := some "1", message := some "old needle post" },
       { id := 3, thread_id := 2, post_no := 2, user_id := none,
         timestamp := some "9", message := some "nothing relevant" }]
    users := [] }

/-- Four threads of which exactly three match the term `"orc"` (two by
message, one by name); used to witness the search scenario. -/
def dbOrc : Db :=
  { threads :=
      [{ id := 1, name := "orc hunting", path := "x/y/English/z" },
       { id := 2, name := "crafting", path := "x/y/English/z" },
       { id := 3, name := "trading", path := "x/y/English/z" },
       { id := 4, name := "politics", path := "x/y/English/z" }]
    posts :=
      [{ id := 1, thread_id := 2, post_no := 1, user_id := none,
         timestamp := some "3", message := some "saw an Orc camp" },
       { id := 2, thread_id := 3, post_no := 1, user_id := none,
         timestamp := some "7", message := some "orcs drop loot" },
       { id := 3, thread_id := 4, post_no := 1, user_id := none,
         timestamp := some "8", message := some "vote tomorrow" }]
    users := [] }

/-- The pagination object the claim says the response carries for
`language=English&page=2&limit=20` over 45 matching threads. -/
def claimedC5Pagination : RoutePagination :=
  { page := 2, limit := 20, totalPages := some 3,
    hasNext := some true, hasPrev := some true, hasMore := none }

/-- A concrete guest post row (no user id, no joined username). -/
def guestRow : PostApiRow :=
  { id := 1, thread_id := 1, post_no := 2, user_id := none, username := none,
    timestamp := some "05-09-2008, 09:39 PM", message := none,
    thread_name := none, thread_path := none }

/-- A bare thread row with no derived fields, as `getThread` returns. -/
def bareThreadRow : ThreadRow :=
  { id := 7, name := "t", path := "a/b/c/d", post_count := none, last_poster := none,
    last_post_time := none, created_time := none, thread_creator := none }

/-! ## Sanity checks on concrete inputs -/

example : getLanguageFromPath "Calendar/Champions of Regnum/English/General" = "English" := by decide
example : getLanguageFromPath "foo/bar" = "Other" := by decide
example : getCategoryFromPath "a/b/c/d" = "d" := by decide
example : getCategoryFromPath "a/b/c" = "General" := by decide
example : getCategoryFromPath "a/b/c/d/e" = "e" := by decide
example : specCategoryFromPath "Calendar/Champions of Regnum/English/d/e" = "d/e" := by decide
example : formatTimestamp (some "05-09-2008, 09:39 PM") = "Sep 5, 2008 at 9:39 PM" := by decide
example : formatTimestamp (some "not a date") = "not a date" := by decide
example : formatTimestamp (some "2008-09-05 09:39 PM") = "Sep 5, 2008 at 9:39 PM" := by decide
example : formatTimestamp none = "Unknown" := by decide
example : formatTimestamp (some "31-02-2008, 09:39 PM") = "31-02-2008, 09:39 PM" := by decide
example : (paginationCalc (some 2) (some 20) 45).totalPages = 3 := by decide
example : (paginationCalc (some 2) (some 20) 0).hasPrev = true := by decide
example : (paginationCalc (some 5) (some 20) 10).startItem = 81 := by decide
example : (paginationCalc (some 5) (some 20) 10).endItem = 10 := by decide
example : (paginationCalc none none 0).limit = 20 := by decide
example : (paginationCalc (some (-3)) (some 200) 7).page = 1 := by decide
example : (paginationCalc (some (-3)) (some 200) 7).limit = 100 := by decide
example :
    sanitizeToks none
      [HTok.tagOpen "script" [], HTok.txt "evil()", HTok.tagClose "script",
       HTok.tagOpen "p" [], HTok.txt "hello", HTok.tagClose "p"]
      = [HTok.tagOpen "p" [], HTok.txt "hello", HTok.tagClose "p"] := by decide
example :
    sanitizeToks none [HTok.tagOpen "a" [("href", "javascript:alert(1)"), ("title", "x")], HTok.txt "link", HTok.tagClose "a"]
      = [HTok.tagOpen "a" [("title", "x")], HTok.txt "link", HTok.tagClose "a"] := by decide
example :
    sanitizeToks none [HTok.tagOpen "a" [("href", "https://x.org")], HTok.tagClose "a"]
      = [HTok.tagOpen "a" [("href", "https://x.org")], HTok.tagClose "a"] := by decide

example : (db45.threads.filter (fun t => langFilter (some "English") t && catFilter none t)).length = 45 := by decide
example : ((searchThreads "needle" none dbNeedle).map (fun r => r.id)) = [2, 1] := by decide
example : (dbOrc.threads.filter (fun t => threadMatches dbOrc "orc" t && langFilter none t)).length = 3 := by decide
example : (searchThreads "orc" none dbOrc).length = 3 := by decide
example : (handleThreadsList (some "English") none none (some 2) (some 20) db45).pagination.totalPages = none := rfl
example : descChain ((searchThreads "needle" none dbNeedle).map (fun r => specMatchingLastTs dbNeedle "needle" { id := r.id, name := r.name, path := r.path })) = false := by decide

/-! ## Order lemmas for the `DESC NULLS LAST` sort -/

theorem strLeList_total (a b : List Char) : strLeList a b = true ∨ strLeList b a = true := by
  induction a generalizing b with
  | nil => left; rfl
  | cons x xs ih =>
    cases b with
    | nil => right; rfl
    | cons y ys =>
      rcases Nat.lt_trichotomy x.toNat y.toNat with h | h | h
      · left; simp [strLeList, h]
      · rcases ih ys with h2 | h2
        · left; simp [strLeList, h, h2]
        · right; simp [strLeList, h, h2]
      · right; simp [strLeList, h]

theorem strLeList_trans {a b c : List Char} (h1 : strLeList a b = true)
    (h2 : strLeList b c = true) : strLeList a c = true := by
  induction a generalizing b c with
  | nil => rfl
  | cons x xs ih =>
    cases b with
    | nil => simp [strLeList] at h1
    | cons y ys =>
      cases c with
      | nil => simp [strLeList] at h2
      | cons z zs =>
        simp only [strLeList] at h1 h2 ⊢
        rcases Nat.lt_trichotomy x.toNat y.toNat with hxy | hxy | hxy
        · rcases Nat.lt_trichotomy y.toNat z.toNat with hyz | hyz | hyz
          · simp [show x.toNat < z.toNat by omega]
          · simp [show x.toNat < z.toNat by omega]
          · simp [hyz, show ¬ y.toNat < z.toNat by omega] at h2
        · rcases Nat.lt_trichotomy y.toNat z.toNat with hyz | hyz | hyz
          · simp [show x.toNat < z.toNat by omega]
          · simp only [show ¬ x.toNat < z.toNat by omega, if_false,
              show ¬ z.toNat < x.toNat by omega] at h1 h2 ⊢
            simp only [show ¬ x.toNat < y.toNat by omega, if_false,
              show ¬ y.toNat < x.toNat by omega] at h1
            simp only [show ¬ y.toNat < z.toNat by omega, if_false,
              show ¬ z.toNat < y.toNat by omega] at h2
            exact ih h1 h2
          · simp [hyz, show ¬ y.toNat < z.toNat by omega] at h2
        · simp [hxy, show ¬ x.toNat < y.toNat by omega] at h1

theorem tsDescLe_total (a b : Option String) : tsDescLe a b = true ∨ tsDescLe b a = true := by
  cases a <;> cases b <;> simp [tsDescLe, strLe]
  exact strLeList_total _ _

theorem tsDescLe_trans {a b c : Option String} (h1 : tsDescLe a b = true)
    (h2 : tsDescLe b c = true) : tsDescLe a c = true := by
  cases a <;> cases b <;> cases c <;> simp [tsDescLe, strLe] at h1 h2 ⊢
  exact strLeList_trans h2 h1

instance (db : Db) : IsTotal ThreadRec (threadOrder db) :=
  ⟨fun _ _ => tsDescLe_total _ _⟩

instance (db : Db) : IsTrans ThreadRec (threadOrder db) :=
  ⟨fun _ _ _ h1 h2 => tsDescLe_trans h1 h2⟩

/-! ## Structure lemmas for `splitSlash` -/

theorem takeWhile_all {p : Char → Bool} {xs : List Char} (h : xs.all p = true) :
    xs.takeWhile p = xs := by
  induction xs with
  | nil => rfl
  | cons x t ih =>
    simp only [List.all_cons, Bool.and_eq_true] at h
    simp [List.takeWhile_cons, h.1, ih h.2]

theorem takeWhile_append_single (p : Char → Bool) (xs : List Char) (c : Char) :
    (xs ++ [c]).takeWhile p
      = if xs.all p then xs ++ (if p c then [c] else []) else xs.takeWhile p := by
  induction xs with
  | nil => by_cases h : p c <;> simp [List.takeWhile_cons, h]
  | cons x t ih =>
    by_cases hx : p x
    · simp only [List.cons_append, List.takeWhile_cons, hx, if_true, List.all_cons,
        Bool.true_and, ih]
      split <;> simp
    · simp [List.takeWhile_cons, hx, ih]

theorem splitSlash_ne_nil (cs : List Char) : splitSlash cs ≠ [] := by
  cases cs with
  | nil => simp [splitSlash]
  | cons c rest =>
    simp only [splitSlash]
    split
    · simp
    · split <;> simp

theorem splitSlash_length (cs : List Char) :
    (splitSlash cs).length = cs.count '/' + 1 := by
  induction cs with
  | nil => rfl
  | cons c rest ih =>
    simp only [splitSlash]
    by_cases h : c = '/'
    · simp [h, List.count_cons, ih]
    · rcases hr : splitSlash rest with _ | ⟨s, ss⟩
      · exact absurd hr (splitSlash_ne_nil rest)
      · have := ih
        rw [hr] at this
        simp [h, List.count_cons, ← this]

theorem splitSlash_all_no_slash {cs : List Char}
    (h : cs.all (fun x => x ≠ '/') = true) : splitSlash cs = [cs] := by
  induction cs with
  | nil => rfl
  | cons c rest ih =>
    simp only [List.all_cons, Bool.and_eq_true] at h
    have hc : ¬ c = '/' := by simpa using h.1
    simp [splitSlash, hc, ih h.2]

theorem splitSlash_getLast (cs : List Char) :
    (splitSlash cs).getLast? = some ((cs.reverse.takeWhile (fun x => x ≠ '/')).reverse) := by
  induction cs with
  | nil => rfl
  | cons c rest ih =>
    by_cases hall : (rest.all (fun x => decide (x ≠ '/'))) = true
    · have hsplit := splitSlash_all_no_slash hall
      have hrev : (rest.reverse.all (fun x => decide (x ≠ '/'))) = true := by
        rw [List.all_reverse]; exact hall
      by_cases hc : c = '/'
      · subst hc
        rw [show splitSlash ('/' :: rest) = [] :: splitSlash rest from by simp [splitSlash]]
        rw [hsplit, List.reverse_cons, takeWhile_append_single, if_pos hrev]
        simp
      · rw [show splitSlash (c :: rest) = (c :: rest) :: [] from by
          simp only [splitSlash, hsplit]
          rw [if_neg hc]]
        rw [List.reverse_cons, takeWhile_append_single, if_pos hrev]
        have hpc : (decide (c ≠ '/')) = true := by simpa using hc
        rw [hpc]
        simp [takeWhile_all hrev]
    · have hmem : '/' ∈ rest := by
        by_contra hnm
        apply hall
        rw [List.all_eq_true]
        intro x hx
        simp only [decide_eq_true_eq]
        intro hxe
        exact hnm (hxe ▸ hx)
      have hlen : 2 ≤ (splitSlash rest).length := by
        rw [splitSlash_length]
        have := List.count_pos_iff.mpr hmem
        omega
      have htail : (rest.reverse.all (fun x => decide (x ≠ '/'))) = false := by
        rw [List.all_reverse]
        exact Bool.eq_false_iff.mpr hall
      have hsuffix : (((c :: rest).reverse).takeWhile (fun x => decide (x ≠ '/'))).reverse
          = ((rest.reverse.takeWhile (fun x => decide (x ≠ '/')))).reverse := by
        rw [List.reverse_cons, takeWhile_append_single, htail]
        simp
      rw [hsuffix, ← ih]
      rcases hr : splitSlash rest with _ | ⟨s, ss⟩
      · exact absurd hr (splitSlash_ne_nil rest)
      · rcases ss with _ | ⟨s2, ss2⟩
        · rw [hr] at hlen; simp at hlen
        · by_cases hc : c = '/'
          · simp [splitSlash, hc, hr]
          · simp [splitSlash, hc, hr]

theorem natCeilDiv_zero (b : Nat) : natCeilDiv 0 b = 0 := by
  rcases b with _ | b
  · rfl
  · exact Nat.div_eq_of_lt (by omega)

/-! ## C1 — pagination calculator -/

/-- C1, counterexample to the claim as stated. The claim demands
`hasNext = hasPrev = false` whenever `total = 0`, but
`getPagination` computes `hasPrev = currentPage > 1` without consulting
the total, so `(page, limit, total) = (2, 20, 0)` yields
`hasPrev = true`; and it demands `startItem ≤ endItem ≤ total` whenever
`total > 0`, but `(page, limit, total) = (5, 20, 10)` yields
`startItem = 81 > endItem = 10`. -/
theorem pagination_claim_counterexample :
    (paginationCalc (some 2) (some 20) 0).hasPrev = true
    ∧ 0 < 10
    ∧ (paginationCalc (some 5) (some 20) 10).startItem = 81
    ∧ (paginationCalc (some 5) (some 20) 10).endItem = 10
    ∧ ¬ ((paginationCalc (some 5) (some 20) 10).startItem
          ≤ (paginationCalc (some 5) (some 20) 10).endItem) := by
  refine ⟨rfl, by omega, rfl, rfl, ?_⟩
  decide

/-- C1 (amended): for every input triple the pagination calculator
returns `page ≥ 1`, `1 ≤ limit ≤ 100`, `offset = (page-1)*limit`,
`totalPages = ceil(total/limit)` with `0` pages and `hasNext = false`
when `total = 0` (`hasPrev` is `page > 1` regardless of the total), and
`endItem ≤ total` always, with `startItem ≤ endItem` whenever
`total > 0` and the page's offset lies below the total. -/
theorem pagination_calc_props (page limitArg : Option Int) (total : Nat) :
    1 ≤ (paginationCalc page limitArg total).page
    ∧ 1 ≤ (paginationCalc page limitArg total).limit
    ∧ (paginationCalc page limitArg total).limit ≤ 100
    ∧ (paginationCalc page limitArg total).offset
        = ((paginationCalc page limitArg total).page - 1) * (paginationCalc page limitArg total).limit
    ∧ (paginationCalc page limitArg total).totalPages
        = natCeilDiv total (paginationCalc page limitArg total).limit
    ∧ (total = 0 → (paginationCalc page limitArg total).totalPages = 0
        ∧ (paginationCalc page limitArg total).hasNext = false)
    ∧ ((paginationCalc page limitArg total).hasPrev = true
        ↔ 1 < (paginationCalc page limitArg total).page)
    ∧ (paginationCalc page limitArg total).endItem ≤ (total : Int)
    ∧ (0 < total → (paginationCalc page limitArg total).offset < total →
        (paginationCalc page limitArg total).startItem
          ≤ (paginationCalc page limitArg total).endItem) := by
  have hpI : (1 : Int) ≤ max 1 (jsOrInt page 1) := le_max_left _ _
  have hlI1 : (1 : Int) ≤ min 100 (max 1 (jsOrInt limitArg 20)) :=
    le_min (by norm_num) (le_max_left _ _)
  have hlI2 : min 100 (max 1 (jsOrInt limitArg 20)) ≤ (100 : Int) := min_le_left _ _
  have hpage : (paginationCalc page limitArg total).page = (max 1 (jsOrInt page 1)).toNat := rfl
  have hlimit : (paginationCalc page limitArg total).limit
      = (min 100 (max 1 (jsOrInt limitArg 20))).toNat := rfl
  have hp1 : 1 ≤ (paginationCalc page limitArg total).page := by rw [hpage]; omega
  have hl1 : 1 ≤ (paginationCalc page limitArg total).limit := by rw [hlimit]; omega
  have hl100 : (paginationCalc page limitArg total).limit ≤ 100 := by rw [hlimit]; omega
  refine ⟨hp1, hl1, hl100, rfl, rfl, ?_, ?_, ?_, ?_⟩
  · intro h
    subst h
    constructor
    · exact natCeilDiv_zero _
    · show decide ((((max 1 (jsOrInt page 1)).toNat : Nat) : Int)
          < ((natCeilDiv 0 (min 100 (max 1 (jsOrInt limitArg 20))).toNat : Nat) : Int)) = false
      rw [natCeilDiv_zero]
      simp only [decide_eq_false_iff_not]
      omega
  · show decide ((1 : Int) < (((max 1 (jsOrInt page 1)).toNat : Nat) : Int)) = true
      ↔ 1 < (paginationCalc page limitArg total).page
    rw [hpage]
    simp only [decide_eq_true_eq]
    omega
  · exact min_le_right _ _
  · intro h0 hoff
    set p := (max 1 (jsOrInt page 1)).toNat with hpdef
    set l := (min 100 (max 1 (jsOrInt limitArg 20))).toNat with hldef
    have hp1n : 1 ≤ p := by omega
    have hl1n : 1 ≤ l := by omega
    have hoffn : (p - 1) * l < total := hoff
    have e1 : (p - 1) * l = p * l - l := Nat.sub_mul p 1 l ▸ by rw [Nat.one_mul]
    have e3 : ((p * l : Nat) : Int) = (p : Int) * (l : Int) := by push_cast; ring
    show ((p : Int) - 1) * (l : Int) + 1 ≤ min ((p : Int) * (l : Int)) (total : Int)
    have e2 : ((p : Int) - 1) * (l : Int) = (p : Int) * (l : Int) - (l : Int) := by ring
    refine le_min ?_ ?_
    · rw [e2]; omega
    · rw [e2]; omega

/-- C1 witness: the amended properties instantiated at
`(page, limit, total) = (2, 20, 45)`, where `offset = 20 < 45`. -/
theorem pagination_calc_props_witness :
    0 < 45 ∧ (paginationCalc (some 2) (some 20) 45).offset < 45
    ∧ (paginationCalc (some 2) (some 20) 45).startItem
        ≤ (paginationCalc (some 2) (some 20) 45).endItem :=
  ⟨by omega, by decide,
    (pagination_calc_props (some 2) (some 20) 45).2.2.2.2.2.2.2.2 (by omega) (by decide)⟩

/-! ## C2 — language resolution -/

/-- C2: for every path, `getLanguageFromPath` returns the language of
the first token of the fixed priority order (Español, English,
Português, Deutsch, Français, Italiano) contained in the path — so a
path holding two recognized tokens resolves to whichever is checked
first — and returns the sentinel `"Other"` whenever no token is
contained; the function is total, so no error is ever raised. -/
theorem language_first_match (path : String) :
    getLanguageFromPath path = firstTokenLang path
    ∧ ((langTokens.all (fun tp => !(strIncludes path tp.1))) = true
        → getLanguageFromPath path = "Other") := by
  cases h1 : strIncludes path "/Español/" <;>
    cases h2 : strIncludes path "/English/" <;>
      cases h3 : strIncludes path "/Português/" <;>
        cases h4 : strIncludes path "/Deutsch/" <;>
          cases h5 : strIncludes path "/Français/" <;>
            cases h6 : strIncludes path "/Italiano/" <;>
              simp [getLanguageFromPath, firstTokenLang, langTokens, List.find?,
                h1, h2, h3, h4, h5, h6]

/-- C2 witness: `"foo/bar"` contains none of the six tokens and resolves
to `"Other"`. -/
theorem language_first_match_witness :
    (langTokens.all (fun tp => !(strIncludes "foo/bar" tp.1))) = true
    ∧ getLanguageFromPath "foo/bar" = "Other" :=
  ⟨by decide, (language_first_match "foo/bar").2 (by decide)⟩

/-! ## C3 — category resolution -/

/-- C3, counterexample to the claim as stated. On a path with five
slash-delimited segments, the code returns only the final segment,
not the remainder of the path after the constant head plus the language
segment: for `Calendar/Champions of Regnum/English/Trading zone/Offers`
the remainder is `Trading zone/Offers` but the code answers
`Offers`. -/
theorem category_remainder_counterexample :
    getCategoryFromPath "Calendar/Champions of Regnum/English/Trading zone/Offers" = "Offers"
    ∧ specCategoryFromPath "Calendar/Champions of Regnum/English/Trading zone/Offers"
        = "Trading zone/Offers"
    ∧ ("Offers" : String) ≠ "Trading zone/Offers" := by
  refine ⟨by decide, by decide, by decide⟩

/-- C3 (amended): for every path with at least four slash-delimited
segments (at least three slashes), category resolution returns the final
slash-delimited segment — the maximal slash-free suffix of the path —
and for every path with fewer segments it returns the sentinel
`"General"`. -/
theorem category_last_segment (path : String) :
    getCategoryFromPath path
      = if 3 ≤ path.data.count '/' then
          String.mk ((path.data.reverse.takeWhile (fun c => c ≠ '/')).reverse)
        else "General" := by
  unfold getCategoryFromPath
  simp only []
  rw [show (splitSlash path.data).length = path.data.count '/' + 1 from splitSlash_length _]
  by_cases h : 3 ≤ path.data.count '/'
  · rw [if_pos (show path.data.count '/' + 1 ≥ 4 by omega), if_pos h]
    congr 1
    rw [List.getLastD_eq_getLast?, splitSlash_getLast]
    rfl
  · rw [if_neg (show ¬ path.data.count '/' + 1 ≥ 4 by omega), if_neg h]

/-! ## C4 — thread search -/

/-- C4, counterexample to the claim as stated. `searchThreads` orders by
`MAX(p.timestamp)` over all posts of each thread, not over the matching
posts: in `dbNeedle` the term `"needle"` matches both threads, thread
1's most recent matching post (`"5"`) is newer than thread 2's (`"1"`),
yet the code lists thread 2 first because a non-matching post (`"9"`)
makes thread 2 the most recently active thread overall. -/
theorem search_order_counterexample :
    ((searchThreads "needle" none dbNeedle).map (fun r => r.id)) = [2, 1]
    ∧ specMatchingLastTs dbNeedle "needle" { id := 1, name := "alpha", path := "x/y/English/z" }
        = some "5"
    ∧ specMatchingLastTs dbNeedle "needle" { id := 2, name := "beta", path := "x/y/English/z" }
        = some "1"
    ∧ tsDescLe (some "1") (some "5") = false := by
  refine ⟨by decide, by decide, by decide, by decide⟩

/-- C4 (amended): for every search term, language filter and dataset,
the thread search (1) returns at most 50 rows regardless of any
requested limit — the route passes no limit to it; (2) matches at
thread level: every returned row comes from a thread whose name matches
or which has some post with a matching message; (3) is ordered by each
thread's most recent post timestamp overall (descending, nulls last) —
not by the most recent matching post; and (4) returns exactly 3 rows
whenever exactly 3 threads match. -/
theorem search_threads_props (q : String) (language : Option String) (db : Db) :
    (searchThreads q language db).length ≤ 50
    ∧ (∀ r ∈ searchThreads q language db, ∃ t, t ∈ db.threads
        ∧ (threadMatches db q t && langFilter language t) = true
        ∧ r = mkSearchRow db t)
    ∧ List.Pairwise (fun a b => tsDescLe a.last_post_time b.last_post_time = true)
        (searchThreads q language db)
    ∧ ((db.threads.filter (fun t => threadMatches db q t && langFilter language t)).length = 3
        → (searchThreads q language db).length = 3) := by
  refine ⟨?_, ?_, ?_, ?_⟩
  · simp only [searchThreads, List.length_map, List.length_take]
    omega
  · intro r hr
    simp only [searchThreads, List.mem_map] at hr
    obtain ⟨t, ht, hmk⟩ := hr
    have ht2 : t ∈ List.insertionSort (threadOrder db)
        (db.threads.filter (fun t => threadMatches db q t && langFilter language t)) :=
      List.mem_of_mem_take ht
    rw [List.mem_insertionSort] at ht2
    rw [List.mem_filter] at ht2
    exact ⟨t, ht2.1, ht2.2, hmk.symm⟩
  · have hsorted : List.Pairwise (threadOrder db)
        (List.insertionSort (threadOrder db)
          (db.threads.filter (fun t => threadMatches db q t && langFilter language t))) :=
      List.sorted_insertionSort (threadOrder db) _
    have htake : List.Pairwise (threadOrder db)
        ((List.insertionSort (threadOrder db)
          (db.threads.filter (fun t => threadMatches db q t && langFilter language t))).take 50) :=
      List.Pairwise.sublist (List.take_sublist _ _) hsorted
    simp only [searchThreads, List.pairwise_map]
    exact htake
  · intro h
    simp only [searchThreads, List.length_map, List.length_take,
      List.length_insertionSort, h]
    omega

/-- C4 witness: in `dbOrc`, exactly 3 of the 4 threads match the term
`"orc"` (the match is ASCII-case-insensitive, like SQLite `LIKE`), and
the search returns exactly 3 rows. -/
theorem search_threads_props_witness :
    (dbOrc.threads.filter (fun t => threadMatches dbOrc "orc" t && langFilter none t)).length = 3
    ∧ (searchThreads "orc" none dbOrc).length = 3 :=
  ⟨by decide, (search_threads_props "orc" none dbOrc).2.2.2 (by decide)⟩

/-! ## C5 — thread-list request scenario -/

/-- C5, counterexample to the claim as stated. On a dataset with exactly
45 English threads, the thread-list route answers with
`pagination = {page, limit, hasMore}` only — it computes no
`totalPages`, `hasNext` or `hasPrev` for the list endpoint — so the
response's pagination object is not the claimed
`{page:2, limit:20, totalPages:3, hasNext:true, hasPrev:true}`. -/
theorem threads_pagination_counterexample :
    (db45.threads.filter (fun t => langFilter (some "English") t && catFilter none t)).length = 45
    ∧ (handleThreadsList (some "English") none none (some 2) (some 20) db45).pagination.totalPages
        = none
    ∧ (handleThreadsList (some "English") none none (some 2) (some 20) db45).pagination
        ≠ claimedC5Pagination := by
  refine ⟨by decide, rfl, ?_⟩
  intro hEq
  have h2 := congrArg RoutePagination.totalPages hEq
  exact Option.noConfusion h2

/-- C5 (amended): for every dataset on which the English-language filter
matches exactly 45 threads, the request
`language=English&page=2&limit=20` returns exactly 20 threads — items
21 through 40 of the most-recent-activity-descending order — and the
response's pagination object is `{page:2, limit:20, hasMore:true}` (no
`totalPages`/`hasNext`/`hasPrev` are present on the list endpoint). -/
theorem threads_list_scenario (db : Db)
    (h : (db.threads.filter (fun t => langFilter (some "English") t && catFilter none t)).length
        = 45) :
    (handleThreadsList (some "English") none none (some 2) (some 20) db).threads.length = 20
    ∧ (handleThreadsList (some "English") none none (some 2) (some 20) db).threads
        = (((List.insertionSort (threadOrder db)
              (db.threads.filter (fun t => langFilter (some "English") t && catFilter none t))).drop
                20).take 20).map
            (fun t => formatThreadForApi (some (mkThreadRow db t)))
    ∧ (handleThreadsList (some "English") none none (some 2) (some 20) db).pagination
        = { page := 2, limit := 20, totalPages := none, hasNext := none, hasPrev := none,
            hasMore := some true } := by
  have hthreads : (handleThreadsList (some "English") none none (some 2) (some 20) db).threads
      = (((List.insertionSort (threadOrder db)
            (db.threads.filter (fun t => langFilter (some "English") t && catFilter none t))).drop
              20).take 20).map
          (fun t => formatThreadForApi (some (mkThreadRow db t))) := by
    show ((getThreads (some "English") none 20 20 db).map
        (fun r => formatThreadForApi (some r))) = _
    simp only [getThreads, List.map_map]
    rfl
  have hlen : (handleThreadsList (some "English") none none (some 2) (some 20) db).threads.length
      = 20 := by
    rw [hthreads]
    simp only [List.length_map, List.length_take, List.length_drop,
      List.length_insertionSort, h]
    omega
  refine ⟨hlen, hthreads, ?_⟩
  have hkey : (handleThreadsList (some "English") none none (some 2) (some 20) db).pagination = { page := 2, limit := 20, totalPages := none, hasNext := none, hasPrev := none, hasMore := some ((handleThreadsList (some "English") none none (some 2) (some 20) db).threads.length == 20) } := rfl
  rw [hkey, hlen]
  rfl

/-- C5 witness: the amended scenario realized on the concrete dataset
`db45`. -/
theorem threads_list_scenario_witness :
    (db45.threads.filter (fun t => langFilter (some "English") t && catFilter none t)).length = 45
    ∧ (handleThreadsList (some "English") none none (some 2) (some 20) db45).threads.length = 20
    ∧ (handleThreadsList (some "English") none none (some 2) (some 20) db45).pagination
        = { page := 2, limit := 20, totalPages := none, hasNext := none, hasPrev := none,
            hasMore := some true } :=
  ⟨by decide, (threads_list_scenario db45 (by decide)).1,
    (threads_list_scenario db45 (by decide)).2.2⟩

/-! ## C6 — formatters on null input -/

/-- C6: each of the three result formatters maps a `null`/`undefined`
input to `null`; being total Lean functions, they cannot throw. -/
theorem formatters_null_safe :
    formatThreadForApi none = none
    ∧ formatUserForApi none = none
    ∧ formatPostForApi none = none :=
  ⟨rfl, rfl, rfl⟩

/-! ## C7 — timestamp normalization -/

theorem tryAltFormats_eq_findSome (s : String) (l : List TSFormat) :
    tryAltFormats s l = l.findSome? (fun f => parseTS f s) := by
  induction l with
  | nil => rfl
  | cons f rest ih =>
    cases hp : parseTS f s <;> simp [tryAltFormats, List.findSome?_cons, hp, ih]

/-- C7 (amended): for every nonempty timestamp string the normalizer
tries the five formats in their fixed order — primary format
day-month-year with a trailing AM/PM time — renders the first
successful parse in the single canonical format, and returns the
string unchanged when no format parses; it is a total function, so no
error is ever raised. (The empty string is the one exception the
counterexample exhibits: it is caught by the falsy guard and yields
`"Unknown"`.) -/
theorem format_timestamp_first_format (s : String) (h : s ≠ "") :
    formatTimestamp (some s)
      = match allTSFormats.findSome? (fun f => parseTS f s) with
        | some dt => renderTS dt
        | none => s := by
  simp only [formatTimestamp, if_neg h, allTSFormats]
  cases hp : parseTS TSFormat.dmyDash s <;>
    simp [List.findSome?_cons, hp, tryAltFormats_eq_findSome]

/-- C7, counterexample to the claim as stated: the empty string matches
none of the five formats, yet the normalizer does not return it
unchanged — the `if (!timestamp)` guard answers `"Unknown"`. -/
theorem format_timestamp_empty_counterexample :
    (allTSFormats.all (fun f => (parseTS f "").isNone)) = true
    ∧ formatTimestamp (some "") = "Unknown"
    ∧ formatTimestamp (some "") ≠ "" := by
  refine ⟨by decide, by decide, by decide⟩

/-- C7 witness: the primary format parses and re-renders canonically,
and a string matching no format comes back unchanged. -/
theorem format_timestamp_first_format_witness :
    formatTimestamp (some "05-09-2008, 09:39 PM") = "Sep 5, 2008 at 9:39 PM"
    ∧ formatTimestamp (some "garbage") = "garbage" :=
  ⟨(format_timestamp_first_format "05-09-2008, 09:39 PM" (by decide)).trans (by decide),
   (format_timestamp_first_format "garbage" (by decide)).trans (by decide)⟩

/-! ## C8 — HTML sanitization -/

theorem sanitizeToks_shape (doc : List HTok) :
    ∀ (st : Option String), ∀ tok ∈ sanitizeToks st doc,
      (∀ n a, tok = HTok.tagOpen n a →
        allowedTags.contains n = true ∧ ∃ a0, a = filterAttrs n a0)
      ∧ (∀ n, tok = HTok.tagClose n → allowedTags.contains n = true) := by
  induction doc with
  | nil =>
    intro st tok h
    cases st <;> simp [sanitizeToks] at h
  | cons tk rest ih =>
    intro st tok h
    cases st with
    | some t =>
      by_cases htk : tk = HTok.tagClose t
      · rw [show sanitizeToks (some t) (tk :: rest) = sanitizeToks none rest from by
          simp [sanitizeToks, htk]] at h
        exact ih none tok h
      · rw [show sanitizeToks (some t) (tk :: rest) = sanitizeToks (some t) rest from by
          simp [sanitizeToks, htk]] at h
        exact ih (some t) tok h
    | none =>
      cases tk with
      | txt s =>
        rw [show sanitizeToks none (HTok.txt s :: rest)
            = HTok.txt s :: sanitizeToks none rest from rfl] at h
        rcases List.mem_cons.mp h with hEq | hMem
        · subst hEq
          exact ⟨fun n0 a0 hne => (nomatch hne), fun n0 hne => (nomatch hne)⟩
        · exact ih none tok hMem
      | tagClose n =>
        by_cases hc : n ∈ allowedTags
        · rw [show sanitizeToks none (HTok.tagClose n :: rest)
              = HTok.tagClose n :: sanitizeToks none rest from by simp [sanitizeToks, hc]] at h
          rcases List.mem_cons.mp h with hEq | hMem
          · subst hEq
            refine ⟨fun n0 a0 hne => (nomatch hne), fun n0 hne => ?_⟩
            injection hne with h1
            subst h1
            simpa using hc
          · exact ih none tok hMem
        · rw [show sanitizeToks none (HTok.tagClose n :: rest)
              = sanitizeToks none rest from by simp [sanitizeToks, hc]] at h
          exact ih none tok h
      | tagOpen n attrs =>
        by_cases hc : n ∈ allowedTags
        · rw [show sanitizeToks none (HTok.tagOpen n attrs :: rest)
              = HTok.tagOpen n (filterAttrs n attrs) :: sanitizeToks none rest from by
            simp [sanitizeToks, hc]] at h
          rcases List.mem_cons.mp h with hEq | hMem
          · subst hEq
            refine ⟨fun n0 a0 hne => ?_, fun n0 hne => (nomatch hne)⟩
            injection hne with h1 h2
            subst h1
            exact ⟨by simpa using hc, attrs, h2.symm⟩
          · exact ih none tok hMem
        · by_cases hnt : n ∈ nonTextTags
          · rw [show sanitizeToks none (HTok.tagOpen n attrs :: rest)
                = sanitizeToks (some n) rest from by simp [sanitizeToks, hc, hnt]] at h
            exact ih (some n) tok h
          · rw [show sanitizeToks none (HTok.tagOpen n attrs :: rest)
                = sanitizeToks none rest from by simp [sanitizeToks, hc, hnt]] at h
            exact ih none tok h

/-- C8: for every parsed message body, (1) every opening tag surviving
sanitization is allow-listed (so a `script` tag never appears) and each
of its surviving `href`/`src` attributes is a relative URL or carries
one of the `http`/`https`/`mailto` schemes; (2) every surviving closing
tag is allow-listed; (3) a document all of whose tags are allowed — a
paragraph tag, for instance — is preserved wholesale, with only its
attributes filtered through the per-tag allow-list. -/
theorem sanitize_allowlist (doc : List HTok) :
    (∀ n a, HTok.tagOpen n a ∈ sanitizeToks none doc →
        allowedTags.contains n = true
        ∧ ∀ kv ∈ a, (kv.1 = "href" ∨ kv.1 = "src") → urlSchemeOk kv.2 = true)
    ∧ (∀ n, HTok.tagClose n ∈ sanitizeToks none doc → allowedTags.contains n = true)
    ∧ ((∀ tok ∈ doc, tokAllowed tok) → sanitizeToks none doc = doc.map attrMapTok) := by
  refine ⟨?_, ?_, ?_⟩
  · intro n a h
    obtain ⟨hopen, _⟩ := sanitizeToks_shape doc none _ h
    obtain ⟨hc, a0, ha⟩ := hopen n a rfl
    refine ⟨hc, ?_⟩
    intro kv hkv hkind
    rw [ha] at hkv
    have hok := (List.mem_filter.mp hkv).2
    simp only [attrOk, Bool.and_eq_true] at hok
    have hcond : (decide (kv.1 = "href") || decide (kv.1 = "src")) = true := by
      rcases hkind with h1 | h1 <;> simp [h1]
    have := hok.2
    rw [if_pos] at this
    · exact this
    · simpa using hcond
  · intro n h
    exact (sanitizeToks_shape doc none _ h).2 n rfl
  · intro hall
    induction doc with
    | nil => rfl
    | cons tk rest ih =>
      have hrest := ih (fun tok h => hall tok (List.mem_cons_of_mem _ h))
      have hhead := hall tk (List.mem_cons_self tk rest)
      cases tk with
      | txt s => simp [sanitizeToks, attrMapTok, hrest]
      | tagOpen n a =>
        simp only [tokAllowed] at hhead
        have hmem : n ∈ allowedTags := by simpa using hhead
        simp [sanitizeToks, hmem, attrMapTok, hrest]
      | tagClose n =>
        simp only [tokAllowed] at hhead
        have hmem : n ∈ allowedTags := by simpa using hhead
        simp [sanitizeToks, hmem, attrMapTok, hrest]

/-- C8 witness: a paragraph with a `class` attribute passes through
unchanged, via the preservation clause instantiated at a concrete
document. -/
theorem sanitize_allowlist_witness :
    sanitizeToks none [HTok.tagOpen "p" [("class", "x")], HTok.txt "hi", HTok.tagClose "p"]
      = [HTok.tagOpen "p" [("class", "x")], HTok.txt "hi", HTok.tagClose "p"] :=
  ((sanitize_allowlist _).2.2 (by decide)).trans (by decide)

/-! ## C9 — guest username defaulting -/

/-- C9: for every post row whose joined `username` field is null or
missing (a guest post with no resolvable user), the post formatter
outputs the fixed string `"Guest"`. -/
theorem post_guest_username (row : PostApiRow) (h : row.username = none) :
    (formatPostForApi (some row)).map (fun a => a.username) = some "Guest" := by
  simp [formatPostForApi, h]

/-- C9 witness: the guest row formats with username `"Guest"`. -/
theorem post_guest_username_witness :
    guestRow.username = none
    ∧ (formatPostForApi (some guestRow)).map (fun a => a.username) = some "Guest" :=
  ⟨rfl, post_guest_username guestRow rfl⟩

/-! ## C10 — absent timestamps -/

/-- C10: the timestamp normalizer answers `"Unknown"` for a
null/undefined or empty-string input, while each entity formatter maps
an absent stored timestamp field to `null` in its output without
invoking the normalizer. -/
theorem absent_timestamps :
    formatTimestamp none = "Unknown"
    ∧ formatTimestamp (some "") = "Unknown"
    ∧ (∀ t : ThreadRow, t.last_post_time = none →
        (formatThreadForApi (some t)).map (fun a => a.lastPostTime) = some none)
    ∧ (∀ t : ThreadRow, t.created_time = none →
        (formatThreadForApi (some t)).map (fun a => a.createdTime) = some none)
    ∧ (∀ u : UserRow, u.first_post = none →
        (formatUserForApi (some u)).map (fun a => a.firstPost) = some none)
    ∧ (∀ u : UserRow, u.last_post = none →
        (formatUserForApi (some u)).map (fun a => a.lastPost) = some none)
    ∧ (∀ p : PostApiRow, p.timestamp = none →
        (formatPostForApi (some p)).map (fun a => a.timestamp) = some none) := by
  refine ⟨rfl, by decide, ?_, ?_, ?_, ?_, ?_⟩ <;> intro x hx <;>
    simp [formatThreadForApi, formatUserForApi, formatPostForApi, jsTruthyS, hx]

/-- C10 witness: a thread row without a stored `last_post_time` formats
with a `null` `lastPostTime`. -/
theorem absent_timestamps_witness :
    bareThreadRow.last_post_time = none
    ∧ (formatThreadForApi (some bareThreadRow)).map (fun a => a.lastPostTime) = some none :=
  ⟨rfl, absent_timestamps.2.2.1 bareThreadRow rfl⟩
